import Mathlib

/-!
Verification of the tensor-parallel sharding context (`exllamav2/tensor_p.py`).

The Python module computes, for five tensor axes (key/value heads, query
heads, intermediate width, vocabulary width, residual width), a split table:
a list of `(device_id, range_start, range_end)` triples.  It then allocates
staging buffers, builds a native collective-engine handle, and exposes
broadcast / gather / residual-add / stream-wait operations.

This file shallowly embeds that module: pure functions become Lean
functions; the stateful lifecycle (`__init__`, `finalize`, `unload`) becomes
explicit state passing over `TPState`; Python exceptions become `Except`
results; the asynchronous device work issued by an operation is recorded as
an explicit list of `Event`s.  Tensors are abstracted to the data the module
itself inspects (device ids and sizes); the numeric contents live in the
native engine, which is an external collaborator.
-/

namespace TensorP

/-- Modelled from the spec: `integer_split` is imported from
`exllamav2/util.py`, which is not part of this repository snapshot; only its
caller `define_split` is.  Spec section 4.1: given an axis size `n` and
non-negative device weights `w`, produce integer allocations summing to `n`,
proportional to the weights (largest-remainder apportionment), with ties
broken deterministically by device index (lower index first), matching the
spec's concrete scenario `integer_split 32 [1,1,1] = [11,11,10]`.
`isQuota n w i` is the numerator of device `i`'s exact proportional quota
`n * w_i / W` (with `W = sum of weights`). -/
def isQuota (n : ℕ) (w : List ℕ) (i : ℕ) : ℕ := n * w.getD i 0

/-- Modelled from the spec: the floor of device `i`'s proportional quota. -/
def isBase (n : ℕ) (w : List ℕ) (i : ℕ) : ℕ := isQuota n w i / w.sum

/-- Modelled from the spec: the remainder of device `i`'s proportional
quota, scaled by `W`; devices with larger remainder receive the leftover
units first. -/
def isRem (n : ℕ) (w : List ℕ) (i : ℕ) : ℕ := isQuota n w i % w.sum

/-- Modelled from the spec: the number of leftover units after every device
received the floor of its quota. -/
def isK (n : ℕ) (w : List ℕ) : ℕ :=
  n - ∑ i in Finset.range w.length, isBase n w i

/-- Modelled from the spec: device `j` is served before device `i` when its
remainder is larger, or equal with a smaller index (the deterministic
tie-break). -/
def isBefore (n : ℕ) (w : List ℕ) (j i : ℕ) : Prop :=
  isRem n w i < isRem n w j ∨ (isRem n w j = isRem n w i ∧ j < i)

instance (n : ℕ) (w : List ℕ) (j i : ℕ) : Decidable (isBefore n w j i) := by
  unfold isBefore; infer_instance

/-- Modelled from the spec: how many devices are served before device `i`
in the largest-remainder order. -/
def isRank (n : ℕ) (w : List ℕ) (i : ℕ) : ℕ :=
  ((Finset.range w.length).filter (fun j => isBefore n w j i)).card

/-- Modelled from the spec: largest-remainder apportionment of `n` units to
`w.length` devices proportionally to the weights `w`; the `isK n w` leftover
units go to the devices of smallest `isRank` (largest remainder first, ties
to the lower device index).  The Python original takes float weights; free
GPU memory amounts are integral, so weights are modelled as naturals. -/
def integer_split (n : ℕ) (w : List ℕ) : List ℕ :=
  (List.range w.length).map
    (fun i => isBase n w i + if isRank n w i < isK n w then 1 else 0)

/-- One split-table entry `(device_id, range_start, range_end)`,
as in the Python `tuple[int, int, int]`. -/
abbrev SplitEntry := ℕ × ℕ × ℕ

/-- Source `tensor_p.py` lines 98-105 (`set_split` inside `define_split`):
prefix-sum the raw per-device allocations, emitting an entry `(d, a, b)` for
every device `d` with a nonzero allocation and skipping the others.  The
accumulator `b` is the running prefix sum, `d` the current device id. -/
def set_split_aux (d b : ℕ) : List ℕ → List SplitEntry
  | [] => []
  | s :: rest =>
      (if s ≠ 0 then [(d, b, b + s)] else []) ++ set_split_aux (d + 1) (b + s) rest

/-- Source `tensor_p.py` `set_split`: entries start at device 0, offset 0. -/
def set_split (raw : List ℕ) : List SplitEntry := set_split_aux 0 0 raw

/-- The slice of the model configuration that `tensor_p.py` reads
(`cfg.arch.supports_tp` is flattened into a single flag). -/
structure TPConfig where
  supports_tp : Bool
  num_key_value_heads : ℕ
  num_key_value_groups : ℕ
  intermediate_size : ℕ
  vocab_size : ℕ
  hidden_size : ℕ
  max_input_len : ℕ
  max_output_len : Option ℕ
deriving DecidableEq, Repr

/-- The five split tables computed by `define_split`
(`tensor_p.py` lines 107-111). -/
structure SplitTables where
  kv_split : List SplitEntry
  id_split : List SplitEntry
  vc_split : List SplitEntry
  rs_split : List SplitEntry
  q_split : List SplitEntry
deriving DecidableEq, Repr

/-- Source `tensor_p.py` lines 82-111 (`define_split`, with an explicit
weight vector; the `gpu_split is None` branch queries live GPU memory from
an external collaborator and is out of scope): apportion the key/value
heads directly, derive the query split by scaling each raw key/value
allocation by `num_key_value_groups`, and apportion the intermediate,
vocabulary and residual axes on reduced units (size divided by 128 resp.
32) scaled back up by the quantum. -/
def define_split_tables (cfg : TPConfig) (w : List ℕ) : SplitTables :=
  { kv_split := set_split (integer_split cfg.num_key_value_heads w)
    id_split := set_split
      ((integer_split (cfg.intermediate_size / 128) w).map (fun s => s * 128))
    vc_split := set_split
      ((integer_split (cfg.vocab_size / 32) w).map (fun s => s * 32))
    rs_split := set_split
      ((integer_split (cfg.hidden_size / 32) w).map (fun s => s * 32))
    q_split := set_split
      ((integer_split cfg.num_key_value_heads w).map
        (fun s => s * cfg.num_key_value_groups)) }

/-- The device ids of a split table, in table order. -/
def split_devices (l : List SplitEntry) : List ℕ := l.map (fun e => e.1)

/-- Source `tensor_p.py` lines 74-79 (`all_devices`): the sorted set union
of the device ids of the key/value, intermediate and vocabulary split
tables — Python's `sorted(set(...) | set(...) | set(...))`, modelled as
sorting the deduplicated concatenation.  The residual and query tables are
not consulted. -/
def all_devices (t : SplitTables) : List ℕ :=
  List.insertionSort (· ≤ ·)
    (split_devices t.kv_split ++ split_devices t.id_split ++
      split_devices t.vc_split).dedup

/-- Source `tensor_p.py` lines 11-15: the axis-kind discriminators. -/
def BROADCAST_KV : ℕ := 0

/-- Source `tensor_p.py` line 12. -/
def BROADCAST_ID : ℕ := 1

/-- Source `tensor_p.py` line 13. -/
def BROADCAST_VC : ℕ := 2

/-- Source `tensor_p.py` line 14. -/
def BROADCAST_RS : ℕ := 3

/-- Source `tensor_p.py` line 15. -/
def BROADCAST_Q : ℕ := 4

/-- The Python exceptions the module can raise.  `assertionError` models a
failed `assert` in `__init__`; `valueError` models `raise ValueError` in
`get_split` and `max()` of an empty sequence; `indexError` models indexing
an empty list; `typeError` models subscripting `None` (the unallocated
pinned buffer).  `lifecycleError` is the error class the spec's error
taxonomy prescribes for use-before-`finalize` and double-`finalize`; the
source defines no such class, so no operation ever produces it. -/
inductive TPError where
  | assertionError
  | valueError
  | indexError
  | typeError
  | lifecycleError
deriving DecidableEq, Repr

/-- One slot of the per-device staging buffer list built by `finalize`:
either a real device-local buffer of a given element count
(`torch.empty_like(self.pinned_temp, device = idx)`) or the shared
`none_tensor` sentinel placeholder. -/
inductive DTemp where
  | buf (size : ℕ)
  | sentinel
deriving DecidableEq, Repr

/-- An output tensor of `broadcast`: either the original input tensor
itself (the zero-copy case `bc_tensors.append(input_tensor)`) or a freshly
allocated tensor on the given device
(`torch.empty_like(input_tensor, device = idx)`). -/
inductive BTensor where
  | source
  | fresh (dev : ℕ)
deriving DecidableEq, Repr

/-- Asynchronous device work and native-engine calls issued by an
operation, recorded in issue order.  Native calls record the engine handle
they are given (`none` when `finalize` has not run). -/
inductive Event where
  | allocDevice (dev : ℕ)
  | nativeBroadcast (ctx : Option ℕ) (dim : ℕ)
  | nativeGather (ctx : Option ℕ) (dim : ℕ)
  | addInPlace (dev lo hi : ℕ)
  | syncStream (dev : ℕ)
  | syncAll
deriving DecidableEq, Repr

/-- The mutable state of a `TPContext` (`tensor_p.py` lines 18-34).
`pinned_temp` is the element count of the host-pinned buffer (`none`
before `finalize`); `device_temp` the staging-buffer slot list; `streams`
the per-device stream handles (modelled by the device ids that own them);
`ext_tp_context` the opaque native engine handle.  `next_handle` and
`freed` are bookkeeping for the native handles the external engine has
handed out and received back, so that leaks are observable. -/
structure TPState where
  cfg : TPConfig
  tables : SplitTables
  device : Option ℕ
  pinned_temp : Option ℕ
  device_temp : Option (List DTemp)
  streams : Option (List ℕ)
  ext_tp_context : Option ℕ
  next_handle : ℕ
  freed : List ℕ
deriving DecidableEq, Repr

/-- Source `tensor_p.py` lines 50-64 and 82-113: the state `__init__`
leaves behind after `define_split` ran — split tables computed, the primary
device set to `all_devices()[0]` (`head?` here; the empty case makes
`__init__` raise, see `tpcontext_init`), and no staging resources or
engine handle yet. -/
def mkInitState (cfg : TPConfig) (w : List ℕ) : TPState :=
  let t := define_split_tables cfg w
  { cfg := cfg
    tables := t
    device := (all_devices t).head?
    pinned_temp := none
    device_temp := none
    streams := none
    ext_tp_context := none
    next_handle := 0
    freed := [] }

/-- Source `tensor_p.py` lines 37-64 (`__init__` with an explicit
`gpu_split`): assert `cfg.arch.supports_tp`, assert
`cfg.intermediate_size % 128 == 0` (no other divisibility is checked),
then run `define_split`; `self.all_devices()[0]` raises `IndexError` when
no device received any allocation. -/
def tpcontext_init (cfg : TPConfig) (w : List ℕ) : Except TPError TPState :=
  if cfg.supports_tp then
    if cfg.intermediate_size % 128 = 0 then
      let s := mkInitState cfg w
      match s.device with
      | none => .error .indexError
      | some _ => .ok s
    else .error .assertionError
  else .error .assertionError

/-- Source `tensor_p.py` lines 119-120: the element count of the pinned
staging buffer — the maximum of (max output length, falling back to max
input length) times the vocabulary size and max input length times the
intermediate size. -/
def pinnedSize (cfg : TPConfig) : ℕ :=
  max ((match cfg.max_output_len with
        | some o => o
        | none => cfg.max_input_len) * cfg.vocab_size)
    (cfg.max_input_len * cfg.intermediate_size)

/-- Source `tensor_p.py` lines 116-147 (`finalize`): allocate the pinned
buffer, allocate one equal-sized device buffer per device in
`all_devices()` and the `none_tensor` sentinel for every other index up to
`max(devices)` (Python's `max()` on an empty sequence raises `ValueError`),
collect the stream handles, and construct a fresh native engine handle.
There is no guard against being called twice: every field is simply
overwritten. -/
def finalize (s : TPState) : Except TPError TPState :=
  let devices := all_devices s.tables
  match devices.max? with
  | none => .error .valueError
  | some md =>
      .ok { s with
        pinned_temp := some (pinnedSize s.cfg)
        device_temp := some ((List.range (md + 1)).map
          (fun idx => if idx ∈ devices then DTemp.buf (pinnedSize s.cfg)
                      else DTemp.sentinel))
        streams := some devices
        ext_tp_context := some s.next_handle
        next_handle := s.next_handle + 1 }

/-- Source `tensor_p.py` lines 67-71 (`unload`): free the native engine
handle if there is one and clear it; otherwise do nothing. -/
def unload (s : TPState) : TPState :=
  match s.ext_tp_context with
  | some h => { s with ext_tp_context := none, freed := s.freed ++ [h] }
  | none => s

/-- Source `tensor_p.py` lines 150-162 (`get_split`): select the split
table for an axis kind; an unknown kind raises `ValueError`. -/
def get_split (t : SplitTables) (bt : ℕ) : Except TPError (List SplitEntry) :=
  if bt = BROADCAST_KV then .ok t.kv_split
  else if bt = BROADCAST_ID then .ok t.id_split
  else if bt = BROADCAST_VC then .ok t.vc_split
  else if bt = BROADCAST_RS then .ok t.rs_split
  else if bt = BROADCAST_Q then .ok t.q_split
  else .error .valueError

/-- Source `tensor_p.py` lines 165-191 (`broadcast`): for each entry of the
selected split table, in order, reuse the input tensor when the entry's
device equals the input tensor's device and otherwise allocate a fresh
tensor on the entry's device; then invoke the native broadcast with
whatever `self.ext_tp_context` currently holds (there is no
before-`finalize` check).  Returns the issued events and the per-device
tensor list.  `dim` is forwarded to the native engine and does not affect
this layer.  `bcStep` is the body of the `for idx, _, _ in split` loop:
the event accumulator collects the device allocations it issues. -/
def bcStep (src_dev : ℕ) (acc : List Event × List BTensor) (e : SplitEntry) :
    List Event × List BTensor :=
  if e.1 = src_dev then (acc.1, acc.2 ++ [BTensor.source])
  else (acc.1 ++ [Event.allocDevice e.1], acc.2 ++ [BTensor.fresh e.1])

/-- Source `tensor_p.py` lines 165-191 (`broadcast`), continued: fold the
loop body over the split table, then invoke the native broadcast. -/
def broadcast (s : TPState) (src_dev bt dim : ℕ) :
    List Event × Except TPError (List BTensor) :=
  match get_split s.tables bt with
  | .error e => ([], .error e)
  | .ok split =>
      let acc := split.foldl (bcStep src_dev) ([], [])
      (acc.1 ++ [Event.nativeBroadcast s.ext_tp_context dim], .ok acc.2)

/-- Source `tensor_p.py` lines 194-213 (`gather`): invoke the native gather
with the current engine handle, then return a view over the pinned buffer
of shape `(batch, split[-1][2] * dim)`.  Indexing `split[-1]` of an empty
table raises `IndexError`; subscripting the never-allocated pinned buffer
(`None`) raises `TypeError`.  Neither is a lifecycle check: the native call
has already been issued. -/
def gather (s : TPState) (batch bt dim : ℕ) :
    List Event × Except TPError (ℕ × ℕ) :=
  match get_split s.tables bt with
  | .error e => ([], .error e)
  | .ok split =>
      ([Event.nativeGather s.ext_tp_context dim],
        match split.getLast? with
        | none => .error .indexError
        | some last =>
            match s.pinned_temp with
            | none => .error .typeError
            | some _ => .ok (batch, last.2.2 * dim))

/-- Source `tensor_p.py` lines 226-238 (`add_residual`): for each entry
`(dev, a, b)` of the selected split table, on that device's own stream, add
the slice `[a * dim, b * dim)` of the source into the target in place.
The native engine handle is never consulted. -/
def add_residual (s : TPState) (bt dim : ℕ) :
    List Event × Except TPError Unit :=
  match get_split s.tables bt with
  | .error e => ([], .error e)
  | .ok split =>
      (split.map (fun e => Event.addInPlace e.1 (e.2.1 * dim) (e.2.2 * dim)), .ok ())

/-- Source `tensor_p.py` lines 241-249 (`wait_streams`): synchronize the
stream of every device in the selected split table, then synchronize all
devices.  The native engine handle is never consulted. -/
def wait_streams (s : TPState) (bt : ℕ) :
    List Event × Except TPError Unit :=
  match get_split s.tables bt with
  | .error e => ([], .error e)
  | .ok split =>
      (split.map (fun e => Event.syncStream e.1) ++ [Event.syncAll], .ok ())

/-- Whether a split table covers `[0, N)` contiguously: the first entry
starts at `0` and every entry starts where the previous one ended. -/
def ContiguousFrom : ℕ → List SplitEntry → Prop
  | _, [] => True
  | c, (_, a, b) :: rest => a = c ∧ ContiguousFrom b rest

instance instDecContiguousFrom : ∀ (c : ℕ) (l : List SplitEntry),
    Decidable (ContiguousFrom c l)
  | _, [] => .isTrue trivial
  | c, (d, a, b) :: rest => by
      have := instDecContiguousFrom b rest
      simp only [ContiguousFrom]
      infer_instance

/-- The full-coverage invariant of the spec's data model for one split
table of an axis of size `N`: contiguous from 0, lengths summing to `N`,
device ids strictly increasing, and no empty range (a device with zero
allocated units is omitted instead). -/
def covers (N : ℕ) (split : List SplitEntry) : Prop :=
  ContiguousFrom 0 split ∧
  (split.map (fun e => e.2.2 - e.2.1)).sum = N ∧
  split.Pairwise (fun e f => e.1 < f.1) ∧
  ∀ e ∈ split, e.2.1 < e.2.2

/-- The configuration used to instantiate the general theorems on concrete
inputs: a tensor-parallel-capable model with 32 key/value heads, 4 query
heads per key/value head, intermediate size 4096, vocabulary and hidden
size 64. -/
def cfgA : TPConfig :=
  { supports_tp := true
    num_key_value_heads := 32
    num_key_value_groups := 4
    intermediate_size := 4096
    vocab_size := 64
    hidden_size := 64
    max_input_len := 4
    max_output_len := none }

/-- A configuration whose residual split table reaches a device that the
key/value, intermediate and vocabulary tables never use: one key/value
head, intermediate size 128, vocabulary size 32, but hidden size 64. -/
def cfgB : TPConfig :=
  { supports_tp := true
    num_key_value_heads := 1
    num_key_value_groups := 1
    intermediate_size := 128
    vocab_size := 32
    hidden_size := 64
    max_input_len := 4
    max_output_len := none }

/-- A configuration whose vocabulary size (33) and hidden size (65) are not
multiples of 32, while the intermediate size (128) satisfies the only
divisibility check `__init__` performs. -/
def cfgC : TPConfig :=
  { supports_tp := true
    num_key_value_heads := 1
    num_key_value_groups := 1
    intermediate_size := 128
    vocab_size := 33
    hidden_size := 65
    max_input_len := 4
    max_output_len := none }

/-! ## Lemmas about the apportionment -/

theorem sum_getD_range (l : List ℕ) :
    ∑ i in Finset.range l.length, l.getD i 0 = l.sum := by
  induction l with
  | nil => simp
  | cons a t ih =>
      rw [List.length_cons, Finset.sum_range_succ']
      simp only [List.getD_cons_succ, List.getD_cons_zero, List.sum_cons, ih]
      omega

theorem listSum_range_map (f : ℕ → ℕ) (n : ℕ) :
    ((List.range n).map f).sum = ∑ i in Finset.range n, f i := by
  induction n with
  | zero => simp
  | succ m ih => rw [List.range_succ, Finset.sum_range_succ]; simp [ih]

theorem isQuota_sum (n : ℕ) (w : List ℕ) :
    ∑ i in Finset.range w.length, isQuota n w i = n * w.sum := by
  unfold isQuota
  rw [← Finset.mul_sum, sum_getD_range]

theorem isBase_rem (n : ℕ) (w : List ℕ) (i : ℕ) :
    w.sum * isBase n w i + isRem n w i = isQuota n w i :=
  Nat.div_add_mod _ _

theorem isBase_rem_sum (n : ℕ) (w : List ℕ) :
    w.sum * (∑ i in Finset.range w.length, isBase n w i) +
      (∑ i in Finset.range w.length, isRem n w i) = n * w.sum := by
  rw [Finset.mul_sum, ← Finset.sum_add_distrib]
  rw [Finset.sum_congr rfl (fun i _ => isBase_rem n w i)]
  exact isQuota_sum n w

theorem isBase_sum_le (n : ℕ) (w : List ℕ) (hW : 0 < w.sum) :
    (∑ i in Finset.range w.length, isBase n w i) ≤ n := by
  have h := isBase_rem_sum n w
  have h2 : w.sum * (∑ i in Finset.range w.length, isBase n w i) ≤ n * w.sum :=
    Nat.le.intro h
  have h1 : w.sum * (∑ i in Finset.range w.length, isBase n w i) ≤ w.sum * n := by
    rwa [mul_comm n w.sum] at h2
  exact Nat.le_of_mul_le_mul_left h1 hW

theorem length_pos_of_sum_pos (w : List ℕ) (hW : 0 < w.sum) : 0 < w.length := by
  cases w with
  | nil => simp at hW
  | cons a t => simp

theorem isK_lt (n : ℕ) (w : List ℕ) (hW : 0 < w.sum) : isK n w < w.length := by
  have hlen := length_pos_of_sum_pos w hW
  have hrem : ∀ i ∈ Finset.range w.length, isRem n w i < w.sum :=
    fun i _ => Nat.mod_lt _ hW
  have hR : (∑ i in Finset.range w.length, isRem n w i) < w.length * w.sum := by
    calc (∑ i in Finset.range w.length, isRem n w i)
        < ∑ _i in Finset.range w.length, w.sum :=
          Finset.sum_lt_sum_of_nonempty (Finset.nonempty_range_iff.mpr (by omega)) hrem
      _ = w.length * w.sum := by
          rw [Finset.sum_const, Finset.card_range, smul_eq_mul]
  have h := isBase_rem_sum n w
  have hle := isBase_sum_le n w hW
  have h2 : w.sum * n < w.sum * ((∑ i in Finset.range w.length, isBase n w i) + w.length) := by
    calc w.sum * n
        = w.sum * (∑ i in Finset.range w.length, isBase n w i) +
            (∑ i in Finset.range w.length, isRem n w i) := by
          rw [h, mul_comm n w.sum]
      _ < w.sum * (∑ i in Finset.range w.length, isBase n w i) + w.sum * w.length := by
          rw [mul_comm w.sum w.length]
          exact Nat.add_lt_add_left hR _
      _ = w.sum * ((∑ i in Finset.range w.length, isBase n w i) + w.length) := by
          rw [mul_add]
  have h3 := Nat.lt_of_mul_lt_mul_left h2
  unfold isK
  omega

theorem isBefore_irrefl (n : ℕ) (w : List ℕ) (i : ℕ) : ¬ isBefore n w i i := by
  unfold isBefore; omega

theorem isBefore_trans (n : ℕ) (w : List ℕ) {a b c : ℕ}
    (h1 : isBefore n w a b) (h2 : isBefore n w b c) : isBefore n w a c := by
  unfold isBefore at h1 h2 ⊢; omega

theorem isBefore_total (n : ℕ) (w : List ℕ) {a b : ℕ} (h : a ≠ b) :
    isBefore n w a b ∨ isBefore n w b a := by
  unfold isBefore; omega

theorem isRank_lt (n : ℕ) (w : List ℕ) {i : ℕ} (hi : i < w.length) :
    isRank n w i < w.length := by
  unfold isRank
  have hsub : (Finset.range w.length).filter (fun j => isBefore n w j i) ⊆
      (Finset.range w.length).erase i := by
    intro j hj
    rw [Finset.mem_filter] at hj
    rw [Finset.mem_erase]
    refine ⟨fun hji => ?_, hj.1⟩
    exact isBefore_irrefl n w i (hji ▸ hj.2)
  calc ((Finset.range w.length).filter (fun j => isBefore n w j i)).card
      ≤ ((Finset.range w.length).erase i).card := Finset.card_le_card hsub
    _ = w.length - 1 := by
        rw [Finset.card_erase_of_mem (Finset.mem_range.mpr hi), Finset.card_range]
    _ < w.length := by omega

theorem isRank_strictMono (n : ℕ) (w : List ℕ) {i j : ℕ}
    (hij : isBefore n w i j) (hi : i < w.length) : isRank n w i < isRank n w j := by
  unfold isRank
  have hnot : i ∉ (Finset.range w.length).filter (fun j' => isBefore n w j' i) := by
    rw [Finset.mem_filter]
    exact fun h => isBefore_irrefl n w i h.2
  have hsub : insert i ((Finset.range w.length).filter (fun j' => isBefore n w j' i)) ⊆
      (Finset.range w.length).filter (fun j' => isBefore n w j' j) := by
    intro x hx
    rw [Finset.mem_insert] at hx
    rw [Finset.mem_filter]
    rcases hx with rfl | hx
    · exact ⟨Finset.mem_range.mpr hi, hij⟩
    · rw [Finset.mem_filter] at hx
      exact ⟨hx.1, isBefore_trans n w hx.2 hij⟩
  have := Finset.card_le_card hsub
  rw [Finset.card_insert_of_not_mem hnot] at this
  omega

theorem isRank_injOn (n : ℕ) (w : List ℕ) :
    Set.InjOn (isRank n w) (Finset.range w.length) := by
  intro i hi j hj hr
  by_contra hne
  rcases isBefore_total n w hne with h | h
  · exact absurd hr (Nat.ne_of_lt (isRank_strictMono n w h (by simpa using hi)))
  · exact absurd hr.symm (Nat.ne_of_lt (isRank_strictMono n w h (by simpa using hj)))

theorem isRank_image (n : ℕ) (w : List ℕ) :
    (Finset.range w.length).image (isRank n w) = Finset.range w.length := by
  apply Finset.eq_of_subset_of_card_le
  · intro r hr
    rw [Finset.mem_image] at hr
    obtain ⟨i, hi, rfl⟩ := hr
    exact Finset.mem_range.mpr (isRank_lt n w (Finset.mem_range.mp hi))
  · rw [Finset.card_image_of_injOn (isRank_injOn n w), Finset.card_range]

theorem range_filter_lt (len k : ℕ) (hk : k ≤ len) :
    (Finset.range len).filter (fun r => r < k) = Finset.range k := by
  ext r
  simp only [Finset.mem_filter, Finset.mem_range]
  omega

theorem isRank_count (n : ℕ) (w : List ℕ) (hW : 0 < w.sum) :
    ((Finset.range w.length).filter (fun i => isRank n w i < isK n w)).card = isK n w := by
  have hk : isK n w ≤ w.length := le_of_lt (isK_lt n w hW)
  have himg : ((Finset.range w.length).filter
      (fun i => isRank n w i < isK n w)).image (isRank n w) =
      ((Finset.range w.length).image (isRank n w)).filter (fun r => r < isK n w) :=
    (Finset.filter_image (p := fun r => r < isK n w) (f := isRank n w)
      (s := Finset.range w.length)).symm
  have hcard : ((Finset.range w.length).filter
      (fun i => isRank n w i < isK n w)).card =
      (((Finset.range w.length).filter
        (fun i => isRank n w i < isK n w)).image (isRank n w)).card := by
    rw [Finset.card_image_of_injOn
      ((isRank_injOn n w).mono (by
        intro x hx
        simp only [Finset.coe_filter, Set.mem_setOf_eq] at hx
        simpa using hx.1))]
  rw [hcard, himg, isRank_image, range_filter_lt _ _ hk, Finset.card_range]

/-- The allocations of the modelled `integer_split` sum to exactly the axis
size whenever the total weight is positive. -/
theorem integer_split_sum (n : ℕ) (w : List ℕ) (hW : 0 < w.sum) :
    (integer_split n w).sum = n := by
  unfold integer_split
  rw [listSum_range_map, Finset.sum_add_distrib]
  have hb : (∑ i in Finset.range w.length,
      (if isRank n w i < isK n w then 1 else 0)) =
      ((Finset.range w.length).filter (fun i => isRank n w i < isK n w)).card := by
    rw [Finset.card_filter]
  rw [hb, isRank_count n w hW]
  have hle := isBase_sum_le n w hW
  unfold isK
  omega

/-- A convenient corollary: `integer_split` has one slot per device. -/
theorem integer_split_length (n : ℕ) (w : List ℕ) :
    (integer_split n w).length = w.length := by
  unfold integer_split
  rw [List.length_map, List.length_range]

/-! ## Lemmas about `set_split` -/

theorem set_split_aux_sum (raw : List ℕ) : ∀ d b,
    ((set_split_aux d b raw).map (fun e => e.2.2 - e.2.1)).sum = raw.sum := by
  induction raw with
  | nil => intro d b; simp [set_split_aux]
  | cons s rest ih =>
      intro d b
      by_cases hs : s = 0
      · simp [set_split_aux, hs, ih]
      · simp [set_split_aux, hs, ih]

theorem set_split_aux_contiguous (raw : List ℕ) : ∀ d b,
    ContiguousFrom b (set_split_aux d b raw) := by
  induction raw with
  | nil => intro d b; simp [set_split_aux, ContiguousFrom]
  | cons s rest ih =>
      intro d b
      by_cases hs : s = 0
      · have := ih (d + 1) (b + s)
        simpa [set_split_aux, hs] using this
      · simpa [set_split_aux, hs, ContiguousFrom] using ih (d + 1) (b + s)

theorem set_split_aux_dev_le (raw : List ℕ) : ∀ d b, ∀ e ∈ set_split_aux d b raw,
    d ≤ e.1 := by
  induction raw with
  | nil => intro d b e he; simp [set_split_aux] at he
  | cons s rest ih =>
      intro d b e he
      simp only [set_split_aux, List.mem_append] at he
      rcases he with h1 | h2
      · by_cases hs : s = 0
        · simp [hs] at h1
        · simp only [hs, ne_eq, not_false_iff, ite_true, List.mem_singleton] at h1
          subst h1
          exact le_refl d
      · have := ih (d + 1) (b + s) e h2
        omega

theorem set_split_aux_pairwise (raw : List ℕ) : ∀ d b,
    (set_split_aux d b raw).Pairwise (fun e f => e.1 < f.1) := by
  induction raw with
  | nil => intro d b; simp [set_split_aux]
  | cons s rest ih =>
      intro d b
      by_cases hs : s = 0
      · simpa [set_split_aux, hs] using ih (d + 1) (b + s)
      · simp only [set_split_aux, hs, ne_eq, not_false_iff, ite_true,
          List.cons_append, List.nil_append]
        refine List.pairwise_cons.mpr ⟨?_, ih (d + 1) (b + s)⟩
        intro f hf
        have := set_split_aux_dev_le rest (d + 1) (b + s) f hf
        show d < f.1
        omega

theorem set_split_aux_pos (raw : List ℕ) : ∀ d b, ∀ e ∈ set_split_aux d b raw,
    e.2.1 < e.2.2 := by
  induction raw with
  | nil => intro d b e he; simp [set_split_aux] at he
  | cons s rest ih =>
      intro d b e he
      by_cases hs : s = 0
      · exact ih (d + 1) (b + s) e (by simpa [set_split_aux, hs] using he)
      · simp only [set_split_aux, hs, ne_eq, not_false_iff, ite_true,
          List.cons_append, List.nil_append, List.mem_cons] at he
        rcases he with rfl | he
        · simp; omega
        · exact ih (d + 1) (b + s) e he

theorem set_split_aux_dvd (q : ℕ) (raw : List ℕ) (hraw : ∀ s ∈ raw, q ∣ s) :
    ∀ d b, q ∣ b → ∀ e ∈ set_split_aux d b raw, q ∣ e.2.1 ∧ q ∣ e.2.2 := by
  induction raw with
  | nil => intro d b hb e he; simp [set_split_aux] at he
  | cons s rest ih =>
      intro d b hb e he
      have hs' : q ∣ s := hraw s (List.mem_cons_self s rest)
      have hrest : ∀ x ∈ rest, q ∣ x := fun x hx => hraw x (List.mem_cons_of_mem s hx)
      by_cases hs : s = 0
      · exact ih hrest (d + 1) (b + s) (by simpa [hs] using hb) e
          (by simpa [set_split_aux, hs] using he)
      · simp only [set_split_aux, hs, ne_eq, not_false_iff, ite_true,
          List.cons_append, List.nil_append, List.mem_cons] at he
        rcases he with rfl | he
        · exact ⟨hb, Dvd.dvd.add hb hs'⟩
        · exact ih hrest (d + 1) (b + s) (Dvd.dvd.add hb hs') e he

theorem set_split_aux_scale (g : ℕ) (hg : 0 < g) (raw : List ℕ) : ∀ d b,
    set_split_aux d (b * g) (raw.map (fun s => s * g)) =
      (set_split_aux d b raw).map (fun e => (e.1, e.2.1 * g, e.2.2 * g)) := by
  induction raw with
  | nil => intro d b; simp [set_split_aux]
  | cons s rest ih =>
      intro d b
      by_cases hs : s = 0
      · subst hs
        simp [set_split_aux]
        exact ih (d + 1) b
      · have hsg : s * g ≠ 0 := by
          intro h
          rcases Nat.mul_eq_zero.mp h with h' | h'
          · exact hs h'
          · omega
        have hrec := ih (d + 1) (b + s)
        rw [add_mul] at hrec
        simp [List.map_cons, set_split_aux, hs, hsg, add_mul, hrec]

/-- `set_split` of a raw allocation list always produces a covering split
table for the axis whose size is the sum of the allocations. -/
theorem set_split_covers (raw : List ℕ) : covers raw.sum (set_split raw) := by
  refine ⟨set_split_aux_contiguous raw 0 0, set_split_aux_sum raw 0 0,
    set_split_aux_pairwise raw 0 0, fun e he => set_split_aux_pos raw 0 0 e he⟩

/-! ## General helper lemmas -/

theorem sum_map_mul (l : List ℕ) (c : ℕ) :
    (l.map (fun s => s * c)).sum = l.sum * c := by
  induction l with
  | nil => simp
  | cons a t ih => simp [ih, add_mul]

theorem dvd_of_mem_map_mul (l : List ℕ) (q : ℕ) :
    ∀ s ∈ l.map (fun x => x * q), q ∣ s := by
  intro s hs
  obtain ⟨x, _, rfl⟩ := List.mem_map.mp hs
  exact dvd_mul_left q x

theorem covers_of_sum {N : ℕ} {raw : List ℕ} (h : raw.sum = N) :
    covers N (set_split raw) := h ▸ set_split_covers raw

theorem set_split_len_sum (raw : List ℕ) :
    ((set_split raw).map (fun e => e.2.2 - e.2.1)).sum = raw.sum :=
  set_split_aux_sum raw 0 0

theorem nat_max_some {l : List ℕ} {m : ℕ} (h : l.max? = some m) :
    m ∈ l ∧ ∀ b ∈ l, b ≤ m :=
  (List.max?_eq_some_iff (fun a => le_refl a) (fun a b => max_choice a b)
    (fun _ _ _ => max_le_iff)).mp h

theorem broadcast_foldl (src : ℕ) (split : List SplitEntry) :
    ∀ (evs0 : List Event) (bc0 : List BTensor),
    split.foldl (bcStep src) (evs0, bc0) =
      (evs0 ++ split.filterMap
        (fun e => if e.1 = src then none else some (Event.allocDevice e.1)),
       bc0 ++ split.map
        (fun e => if e.1 = src then BTensor.source else BTensor.fresh e.1)) := by
  induction split with
  | nil => intro evs0 bc0; simp
  | cons e rest ih =>
      intro evs0 bc0
      by_cases he : e.1 = src
      · simp [bcStep, he, ih, List.filterMap_cons]
      · simp [bcStep, he, ih, List.filterMap_cons]

theorem finalize_ok (s : TPState) (md : ℕ)
    (hmd : (all_devices s.tables).max? = some md) :
    finalize s = .ok { s with
      pinned_temp := some (pinnedSize s.cfg)
      device_temp := some ((List.range (md + 1)).map
        (fun idx => if idx ∈ all_devices s.tables then DTemp.buf (pinnedSize s.cfg)
                    else DTemp.sentinel))
      streams := some (all_devices s.tables)
      ext_tp_context := some s.next_handle
      next_handle := s.next_handle + 1 } := by
  simp only [finalize, hmd]

theorem mem_all_devices (t : SplitTables) (d : ℕ) :
    d ∈ all_devices t ↔
      d ∈ split_devices t.kv_split ∨ d ∈ split_devices t.id_split ∨
        d ∈ split_devices t.vc_split := by
  unfold all_devices
  rw [(List.perm_insertionSort _ _).mem_iff, List.mem_dedup]
  simp [or_assoc]

/-! ## Claims -/

/-- C1: for every valid axis size and weight vector (total weight positive,
each quantized axis size a multiple of its quantum), each split table
produced by `define_split` covers `[0, N)` contiguously — entries sorted by
increasing device id, each entry starting where the previous ended (the
first at 0), lengths summing to the axis size, and zero-allocation devices
omitted rather than present as empty ranges.  The query axis size is the
key/value head count times the head-group ratio. -/
theorem define_split_covers (cfg : TPConfig) (w : List ℕ) (hW : 0 < w.sum)
    (hid : 128 ∣ cfg.intermediate_size) (hvc : 32 ∣ cfg.vocab_size)
    (hrs : 32 ∣ cfg.hidden_size) :
    covers cfg.num_key_value_heads (define_split_tables cfg w).kv_split ∧
    covers (cfg.num_key_value_heads * cfg.num_key_value_groups)
      (define_split_tables cfg w).q_split ∧
    covers cfg.intermediate_size (define_split_tables cfg w).id_split ∧
    covers cfg.vocab_size (define_split_tables cfg w).vc_split ∧
    covers cfg.hidden_size (define_split_tables cfg w).rs_split := by
  refine ⟨covers_of_sum (integer_split_sum _ _ hW), covers_of_sum ?_,
    covers_of_sum ?_, covers_of_sum ?_, covers_of_sum ?_⟩
  · rw [sum_map_mul, integer_split_sum _ _ hW]
  · rw [sum_map_mul, integer_split_sum _ _ hW, Nat.div_mul_cancel hid]
  · rw [sum_map_mul, integer_split_sum _ _ hW, Nat.div_mul_cancel hvc]
  · rw [sum_map_mul, integer_split_sum _ _ hW, Nat.div_mul_cancel hrs]

/-- C1 witness: the coverage invariant evaluated on the concrete
configuration `cfgA` with weights `[3, 1]`. -/
theorem define_split_covers_witness :
    0 < ([3, 1] : List ℕ).sum ∧
    covers cfgA.num_key_value_heads (define_split_tables cfgA [3, 1]).kv_split ∧
    covers (cfgA.num_key_value_heads * cfgA.num_key_value_groups)
      (define_split_tables cfgA [3, 1]).q_split :=
  ⟨by decide,
    (define_split_covers cfgA [3, 1] (by decide) (by decide) (by decide) (by decide)).1,
    (define_split_covers cfgA [3, 1] (by decide) (by decide) (by decide) (by decide)).2.1⟩

/-- C4: the query-head split table is the key/value-head split table with
every range boundary scaled by the head-group ratio, entry for entry; the
query axis is never independently apportioned (it is literally computed by
scaling the raw key/value allocations). -/
theorem q_split_eq_kv_scaled (cfg : TPConfig) (w : List ℕ)
    (hg : 0 < cfg.num_key_value_groups) :
    (define_split_tables cfg w).q_split =
      (define_split_tables cfg w).kv_split.map
        (fun e => (e.1, e.2.1 * cfg.num_key_value_groups,
          e.2.2 * cfg.num_key_value_groups)) := by
  show set_split ((integer_split cfg.num_key_value_heads w).map
    (fun s => s * cfg.num_key_value_groups)) = _
  unfold set_split
  have h := set_split_aux_scale cfg.num_key_value_groups hg
    (integer_split cfg.num_key_value_heads w) 0 0
  simpa using h

/-- C4 witness: the scaling relation evaluated on `cfgA` (head-group
ratio 4) with weights `[3, 1]`. -/
theorem q_split_eq_kv_scaled_witness :
    0 < cfgA.num_key_value_groups ∧
    (define_split_tables cfgA [3, 1]).q_split =
      (define_split_tables cfgA [3, 1]).kv_split.map
        (fun e => (e.1, e.2.1 * cfgA.num_key_value_groups,
          e.2.2 * cfgA.num_key_value_groups)) :=
  ⟨by decide, q_split_eq_kv_scaled cfgA [3, 1] (by decide)⟩

/-- C5: every range boundary in the intermediate split table is a multiple
of 128, and every range boundary in the vocabulary and residual split
tables is a multiple of 32, for every configuration and weight vector
(apportionment happens on the reduced unit and is scaled back up by the
quantum). -/
theorem split_boundaries_aligned (cfg : TPConfig) (w : List ℕ) :
    (∀ e ∈ (define_split_tables cfg w).id_split, 128 ∣ e.2.1 ∧ 128 ∣ e.2.2) ∧
    (∀ e ∈ (define_split_tables cfg w).vc_split, 32 ∣ e.2.1 ∧ 32 ∣ e.2.2) ∧
    (∀ e ∈ (define_split_tables cfg w).rs_split, 32 ∣ e.2.1 ∧ 32 ∣ e.2.2) := by
  refine ⟨fun e he => ?_, fun e he => ?_, fun e he => ?_⟩
  · exact set_split_aux_dvd 128 _ (dvd_of_mem_map_mul _ 128) 0 0 (dvd_zero 128) e he
  · exact set_split_aux_dvd 32 _ (dvd_of_mem_map_mul _ 32) 0 0 (dvd_zero 32) e he
  · exact set_split_aux_dvd 32 _ (dvd_of_mem_map_mul _ 32) 0 0 (dvd_zero 32) e he

/-- C5 witness: alignment evaluated on a concrete entry of the
intermediate split table of `cfgA` with weights `[3, 1]`. -/
theorem split_boundaries_aligned_witness :
    ((0, 0, 3072) : SplitEntry) ∈ (define_split_tables cfgA [3, 1]).id_split ∧
    (128 ∣ ((0, 0, 3072) : SplitEntry).2.1 ∧ 128 ∣ ((0, 0, 3072) : SplitEntry).2.2) :=
  ⟨by decide, (split_boundaries_aligned cfgA [3, 1]).1 (0, 0, 3072) (by decide)⟩

/-- C6: `all_devices` is deterministic (it is a function of the split
tables), sorted without duplicates, and a device id belongs to it exactly
when it appears in the key/value, intermediate or vocabulary split table;
in particular a device appearing only in the residual or query table is
excluded. -/
theorem all_devices_spec (t : SplitTables) :
    (all_devices t).Sorted (· ≤ ·) ∧ (all_devices t).Nodup ∧
    (∀ d, d ∈ all_devices t ↔
      d ∈ split_devices t.kv_split ∨ d ∈ split_devices t.id_split ∨
        d ∈ split_devices t.vc_split) ∧
    (∀ d, d ∉ split_devices t.kv_split → d ∉ split_devices t.id_split →
      d ∉ split_devices t.vc_split → d ∉ all_devices t) := by
  refine ⟨List.sorted_insertionSort _ _,
    ((List.perm_insertionSort _ _).nodup_iff).mpr (List.nodup_dedup _),
    mem_all_devices t, ?_⟩
  intro d h1 h2 h3 hmem
  rcases (mem_all_devices t d).mp hmem with h | h | h
  · exact h1 h
  · exact h2 h
  · exact h3 h

/-- C6 witness: evaluated on the tables of `cfgB` with weights `[2, 1]`,
where device 1 appears in the residual table only and is excluded. -/
theorem all_devices_spec_witness :
    (all_devices (define_split_tables cfgB [2, 1])).Sorted (· ≤ ·) ∧
    (1 ∈ all_devices (define_split_tables cfgB [2, 1]) ↔
      1 ∈ split_devices (define_split_tables cfgB [2, 1]).kv_split ∨
      1 ∈ split_devices (define_split_tables cfgB [2, 1]).id_split ∨
      1 ∈ split_devices (define_split_tables cfgB [2, 1]).vc_split) :=
  ⟨(all_devices_spec (define_split_tables cfgB [2, 1])).1,
    (all_devices_spec (define_split_tables cfgB [2, 1])).2.2.1 1⟩

/-- C9: `unload` is idempotent — after any call the handle is released;
a call on a context whose handle is absent (never finalized or already
unloaded) changes nothing; a call on a context holding handle `h` releases
exactly `h` and clears the field.  `unload` is a total function of the
state, so no call can raise. -/
theorem unload_idempotent (s : TPState) :
    (unload s).ext_tp_context = none ∧
    unload (unload s) = unload s ∧
    (s.ext_tp_context = none → unload s = s) ∧
    (∀ h, s.ext_tp_context = some h →
      unload s = { s with ext_tp_context := none, freed := s.freed ++ [h] }) := by
  rcases hs : s.ext_tp_context with _ | h
  · refine ⟨?_, ?_, ?_, ?_⟩ <;> simp [unload, hs]
  · refine ⟨?_, ?_, ?_, ?_⟩ <;> simp [unload, hs]

/-- C9 witness: idempotence evaluated on the freshly initialized (never
finalized) context for `cfgA` with weights `[3, 1]`. -/
theorem unload_idempotent_witness :
    (mkInitState cfgA [3, 1]).ext_tp_context = none ∧
    unload (mkInitState cfgA [3, 1]) = mkInitState cfgA [3, 1] ∧
    unload (unload (mkInitState cfgA [3, 1])) = unload (mkInitState cfgA [3, 1]) :=
  ⟨rfl, (unload_idempotent (mkInitState cfgA [3, 1])).2.2.1 rfl,
    (unload_idempotent (mkInitState cfgA [3, 1])).2.1⟩

/-- C2 counterexample: on a freshly initialized, never finalized context
(`ext_tp_context = none`), `wait_streams` and `add_residual` complete with
no error at all — in particular no `LifecycleError` — refuting the claim
that every collective operation raises a `LifecycleError` before
`finalize`. -/
theorem collective_before_finalize_no_error :
    (mkInitState cfgA [3, 1]).ext_tp_context = none ∧
    (wait_streams (mkInitState cfgA [3, 1]) BROADCAST_KV).2 = .ok () ∧
    (add_residual (mkInitState cfgA [3, 1]) BROADCAST_KV 1).2 = .ok () :=
  ⟨rfl, rfl, rfl⟩

/-- C2 amended: no pre-`finalize` lifecycle check exists.  Before
`finalize`, `wait_streams` and `add_residual` complete without error;
`broadcast` succeeds at this layer, allocating its per-device output
tensors and then handing the absent (`none`) engine handle to the native
broadcast call as its last issued event; `gather` hands the absent handle
to the native gather call and then fails with a `TypeError` from
subscripting the missing pinned buffer — never with a `LifecycleError`,
and never before the native call was issued. -/
theorem collective_before_finalize_behavior (s : TPState) (bt dim src batch : ℕ)
    (split : List SplitEntry) (hext : s.ext_tp_context = none)
    (hsplit : get_split s.tables bt = .ok split) :
    (wait_streams s bt).2 = .ok () ∧
    (add_residual s bt dim).2 = .ok () ∧
    (∃ bc, (broadcast s src bt dim).2 = .ok bc) ∧
    (broadcast s src bt dim).1.getLast? = some (.nativeBroadcast none dim) ∧
    (gather s batch bt dim).1 = [.nativeGather none dim] ∧
    (split ≠ [] → s.pinned_temp = none →
      (gather s batch bt dim).2 = .error .typeError) := by
  unfold wait_streams add_residual broadcast gather
  rw [hsplit, hext]
  refine ⟨rfl, rfl, ⟨_, rfl⟩, List.getLast?_concat _, rfl, ?_⟩
  intro hne hpin
  rw [hpin]
  rcases hl : split.getLast? with _ | last
  · exact absurd (List.getLast?_eq_none_iff.mp hl) hne
  · simp [hl]

/-- C2 amended witness: the behavior evaluated on the unfinalized context
for `cfgA` with weights `[3, 1]` and the key/value axis. -/
theorem collective_before_finalize_behavior_witness :
    (mkInitState cfgA [3, 1]).ext_tp_context = none ∧
    get_split (mkInitState cfgA [3, 1]).tables BROADCAST_KV =
      .ok [(0, 0, 24), (1, 24, 32)] ∧
    (broadcast (mkInitState cfgA [3, 1]) 0 BROADCAST_KV 1).1.getLast? =
      some (.nativeBroadcast none 1) ∧
    (gather (mkInitState cfgA [3, 1]) 1 BROADCAST_KV 1).2 = .error .typeError :=
  ⟨rfl, rfl,
    (collective_before_finalize_behavior (mkInitState cfgA [3, 1]) BROADCAST_KV 1 0 1
      [(0, 0, 24), (1, 24, 32)] rfl rfl).2.2.2.1,
    (collective_before_finalize_behavior (mkInitState cfgA [3, 1]) BROADCAST_KV 1 0 1
      [(0, 0, 24), (1, 24, 32)] rfl rfl).2.2.2.2.2 (by simp) rfl⟩

/-- C7 counterexample: finalizing the context for `cfgA` twice without an
intervening `unload` raises nothing: both calls return `.ok`, the second
silently installs a fresh engine handle (1) over the first (0), and the
freed-handle list stays empty — the first handle is leaked, not released
and not guarded against. -/
theorem double_finalize_no_error :
    ((finalize (mkInitState cfgA [3, 1])).bind finalize).map
        (fun s => (s.ext_tp_context, s.freed)) = .ok (some 1, []) ∧
    (finalize (mkInitState cfgA [3, 1])).map (fun s => s.ext_tp_context) =
      .ok (some 0) :=
  ⟨rfl, rfl⟩

/-- C7 amended: a second `finalize` without an intervening `unload` does
not fail fast — it succeeds, re-allocates the staging resources, and
overwrites the engine handle with a fresh one while never freeing the
previous handle (a leak). -/
theorem double_finalize_leaks (s : TPState) (md : ℕ)
    (hmd : (all_devices s.tables).max? = some md) :
    ∃ s1 s2, finalize s = .ok s1 ∧ finalize s1 = .ok s2 ∧
      s1.ext_tp_context = some s.next_handle ∧
      s2.ext_tp_context = some (s.next_handle + 1) ∧
      s1.freed = s.freed ∧ s2.freed = s.freed := by
  refine ⟨_, _, finalize_ok s md hmd, finalize_ok _ md ?_, rfl, rfl, rfl, rfl⟩
  exact hmd

/-- C7 amended witness: the double-finalize behavior evaluated on the
context for `cfgA` with weights `[3, 1]`. -/
theorem double_finalize_leaks_witness :
    (all_devices (mkInitState cfgA [3, 1]).tables).max? = some 1 ∧
    (∃ s1 s2, finalize (mkInitState cfgA [3, 1]) = .ok s1 ∧ finalize s1 = .ok s2 ∧
      s1.ext_tp_context = some (mkInitState cfgA [3, 1]).next_handle ∧
      s2.ext_tp_context = some ((mkInitState cfgA [3, 1]).next_handle + 1) ∧
      s1.freed = (mkInitState cfgA [3, 1]).freed ∧
      s2.freed = (mkInitState cfgA [3, 1]).freed) :=
  ⟨rfl, double_finalize_leaks (mkInitState cfgA [3, 1]) 1 rfl⟩

/-- C3 counterexample: for `cfgB` with weights `[2, 1]`, device 1 owns the
range `[32, 64)` of the residual split table, yet after `finalize` the
staging-buffer list has length 1 — device 1 holds neither a device-local
buffer nor even a sentinel slot, refuting the claim that every device id
appearing in any of the five split tables holds a staging buffer. -/
theorem rs_device_without_buffer :
    (finalize (mkInitState cfgB [2, 1])).map
        (fun s => (s.tables.rs_split, s.device_temp)) =
      .ok ([(0, 0, 32), (1, 32, 64)], some [DTemp.buf 512]) :=
  rfl

/-- C3 amended: after `finalize`, the pinned buffer holds `pinnedSize`
elements, and the staging-buffer list has one slot per index up to the
maximum of `all_devices()` — the union of the key/value, intermediate and
vocabulary tables only: each index in `all_devices()` holds a device-local
buffer of exactly the pinned buffer's size, each other index in range
holds the sentinel placeholder, and a device appearing only in the
residual or query split table beyond that maximum holds no slot at all. -/
theorem finalize_device_temp (s : TPState) (md : ℕ)
    (hmd : (all_devices s.tables).max? = some md) :
    ∃ s1, finalize s = .ok s1 ∧ s1.pinned_temp = some (pinnedSize s.cfg) ∧
      ∃ l, s1.device_temp = some l ∧ l.length = md + 1 ∧
        (∀ i (hi : i < l.length),
          l.get ⟨i, hi⟩ =
            if i ∈ all_devices s.tables then DTemp.buf (pinnedSize s.cfg)
            else DTemp.sentinel) ∧
        (∀ d ∈ all_devices s.tables, d < l.length) := by
  refine ⟨_, finalize_ok s md hmd, rfl, _, rfl, ?_, ?_, ?_⟩
  · simp
  · intro i hi
    simp
  · intro d hd
    have hle := (nat_max_some hmd).2 d hd
    simp only [List.length_map, List.length_range]
    omega

/-- C3 amended witness: the staging allocation evaluated on `cfgB` with
weights `[2, 1]` (participating devices `[0]`, maximum id 0). -/
theorem finalize_device_temp_witness :
    (all_devices (mkInitState cfgB [2, 1]).tables).max? = some 0 ∧
    (∃ s1, finalize (mkInitState cfgB [2, 1]) = .ok s1 ∧
      s1.pinned_temp = some (pinnedSize (mkInitState cfgB [2, 1]).cfg) ∧
      ∃ l, s1.device_temp = some l ∧ l.length = 0 + 1 ∧
        (∀ i (hi : i < l.length),
          l.get ⟨i, hi⟩ =
            if i ∈ all_devices (mkInitState cfgB [2, 1]).tables
            then DTemp.buf (pinnedSize (mkInitState cfgB [2, 1]).cfg)
            else DTemp.sentinel) ∧
        (∀ d ∈ all_devices (mkInitState cfgB [2, 1]).tables, d < l.length)) :=
  ⟨rfl, finalize_device_temp (mkInitState cfgB [2, 1]) 0 rfl⟩

/-- C8: for every broadcast whose axis kind resolves to a split table, the
returned list has exactly one tensor per split-table entry, in split-table
order: the entry whose device id equals the source tensor's device is the
original source tensor itself (zero-copy), and every other entry is a
freshly allocated tensor on that entry's device. -/
theorem broadcast_result (s : TPState) (src bt dim : ℕ) (split : List SplitEntry)
    (hsplit : get_split s.tables bt = .ok split) :
    (broadcast s src bt dim).2 =
      .ok (split.map
        (fun e => if e.1 = src then BTensor.source else BTensor.fresh e.1)) ∧
    ∀ bc, (broadcast s src bt dim).2 = .ok bc → bc.length = split.length := by
  have hb : (broadcast s src bt dim).2 =
      .ok (split.map
        (fun e => if e.1 = src then BTensor.source else BTensor.fresh e.1)) := by
    unfold broadcast
    rw [hsplit]
    simp only [broadcast_foldl, List.nil_append]
  refine ⟨hb, fun bc hbc => ?_⟩
  rw [hb] at hbc
  cases hbc
  rw [List.length_map]

/-- C8 witness: a key/value-axis broadcast from device 0 on the context for
`cfgA` with weights `[3, 1]` returns the source tensor for device 0's
entry and a fresh tensor on device 1 for the other. -/
theorem broadcast_result_witness :
    get_split (mkInitState cfgA [3, 1]).tables BROADCAST_KV =
      .ok [(0, 0, 24), (1, 24, 32)] ∧
    (broadcast (mkInitState cfgA [3, 1]) 0 BROADCAST_KV 1).2 =
      .ok [BTensor.source, BTensor.fresh 1] :=
  ⟨rfl,
    (broadcast_result (mkInitState cfgA [3, 1]) 0 BROADCAST_KV 1
      [(0, 0, 24), (1, 24, 32)] rfl).1⟩

/-- C10: construction validates divisibility only for the intermediate
width: with a positive total weight, a supported architecture and an
intermediate size divisible by 128, `__init__` (hence `define_split`)
succeeds regardless of `vocab_size % 32` and `hidden_size % 32`, and the
vocabulary (resp. residual) split-table lengths sum to
`32 * (size / 32)` — strictly less than the axis size whenever the size is
not a multiple of 32, silently breaking the full-coverage invariant for
that axis.  (`32 ≤ vocab_size` keeps the device list nonempty, which
`define_split` requires on any path.) -/
theorem construction_skips_32_checks (cfg : TPConfig) (w : List ℕ)
    (hW : 0 < w.sum) (htp : cfg.supports_tp = true)
    (hint : cfg.intermediate_size % 128 = 0) (hvs : 32 ≤ cfg.vocab_size) :
    (∃ s, tpcontext_init cfg w = .ok s) ∧
    ((define_split_tables cfg w).vc_split.map (fun e => e.2.2 - e.2.1)).sum =
      32 * (cfg.vocab_size / 32) ∧
    ((define_split_tables cfg w).rs_split.map (fun e => e.2.2 - e.2.1)).sum =
      32 * (cfg.hidden_size / 32) ∧
    (¬ 32 ∣ cfg.vocab_size →
      ((define_split_tables cfg w).vc_split.map (fun e => e.2.2 - e.2.1)).sum <
        cfg.vocab_size) ∧
    (¬ 32 ∣ cfg.hidden_size →
      ((define_split_tables cfg w).rs_split.map (fun e => e.2.2 - e.2.1)).sum <
        cfg.hidden_size) := by
  have hvcsum : ((define_split_tables cfg w).vc_split.map
      (fun e => e.2.2 - e.2.1)).sum = 32 * (cfg.vocab_size / 32) := by
    show ((set_split _).map _).sum = _
    rw [set_split_len_sum, sum_map_mul, integer_split_sum _ _ hW, mul_comm]
  have hrssum : ((define_split_tables cfg w).rs_split.map
      (fun e => e.2.2 - e.2.1)).sum = 32 * (cfg.hidden_size / 32) := by
    show ((set_split _).map _).sum = _
    rw [set_split_len_sum, sum_map_mul, integer_split_sum _ _ hW, mul_comm]
  refine ⟨?_, hvcsum, hrssum, fun hnd => ?_, fun hnd => ?_⟩
  · -- the vocabulary table is nonempty, so `all_devices` is nonempty and
    -- `__init__` succeeds
    have hne : (define_split_tables cfg w).vc_split ≠ [] := by
      intro h
      rw [h] at hvcsum
      simp only [List.map_nil, List.sum_nil] at hvcsum
      have : 1 ≤ cfg.vocab_size / 32 := (Nat.one_le_div_iff (by omega)).mpr hvs
      omega
    obtain ⟨e, he⟩ := List.exists_mem_of_ne_nil _ hne
    have hmem : e.1 ∈ all_devices (define_split_tables cfg w) :=
      (mem_all_devices _ e.1).mpr (Or.inr (Or.inr (List.mem_map_of_mem _ he)))
    have hady : all_devices (define_split_tables cfg w) ≠ [] :=
      List.ne_nil_of_mem hmem
    unfold tpcontext_init
    rw [htp, if_pos rfl, if_pos hint]
    rcases hdev : (mkInitState cfg w).device with _ | d
    · exfalso
      apply hady
      have : (all_devices (define_split_tables cfg w)).head? = none := hdev
      exact List.head?_eq_none_iff.mp this
    · exact ⟨mkInitState cfg w, by simp [hdev]⟩
  · rw [hvcsum]; omega
  · rw [hrssum]; omega

/-- C10 witness: evaluated on `cfgC` (vocabulary 33, hidden 65, neither a
multiple of 32) with weights `[2, 1]`: construction succeeds and both
tables cover strictly less than the axis. -/
theorem construction_skips_32_checks_witness :
    (∃ s, tpcontext_init cfgC [2, 1] = .ok s) ∧
    ((define_split_tables cfgC [2, 1]).vc_split.map
      (fun e => e.2.2 - e.2.1)).sum < cfgC.vocab_size ∧
    ((define_split_tables cfgC [2, 1]).rs_split.map
      (fun e => e.2.2 - e.2.1)).sum < cfgC.hidden_size :=
  ⟨(construction_skips_32_checks cfgC [2, 1] (by decide) rfl (by decide)
      (by decide)).1,
    (construction_skips_32_checks cfgC [2, 1] (by decide) rfl (by decide)
      (by decide)).2.2.2.1 (by decide),
    (construction_skips_32_checks cfgC [2, 1] (by decide) rfl (by decide)
      (by decide)).2.2.2.2 (by decide)⟩

end TensorP
